import Mathlib

/-!
Verification development for the blockchain exam system's secure paper
custody pipeline (backend/utils/crypto.py, backend/apps/blockchain/services.py,
backend/apps/exams/views.py).

Byte strings are modelled as `List Nat` with entries below 256; machine
words are `Nat` reduced modulo 2^32 where overflow matters.  External
library primitives (gmssl SM2/SM3, hashlib, PBKDF2) that the repository
calls but does not define are passed in as explicit function parameters,
except the SM4 block cipher, which is modelled concretely because the
CBC/padding round-trip property depends on its structure.
-/

namespace ExamSystem

/-! ## Definitions -/

abbrev Bytes := List Nat

/-! ### 32-bit words assembled from bytes (big-endian, as in the SM4 standard) -/

/-- Pack four bytes into a 32-bit word (big-endian). -/
def word (b0 b1 b2 b3 : Nat) : Nat :=
  b0 % 256 * 16777216 + b1 % 256 * 65536 + b2 % 256 * 256 + b3 % 256

/-- Split a 32-bit word into its four bytes (big-endian). -/
def wordBytes (w : Nat) : Bytes :=
  [w / 16777216 % 256, w / 65536 % 256, w / 256 % 256, w % 256]

/-! ### SM4 block cipher (models the gmssl `sm4` module used by
`GMCrypto.sm4_encrypt` / `GMCrypto.sm4_decrypt`). -/

/-- The SM4 S-box (GB/T 32907-2016). -/
def sm4Sbox : List Nat :=
  [0xd6, 0x90, 0xe9, 0xfe, 0xcc, 0xe1, 0x3d, 0xb7, 0x16, 0xb6, 0x14, 0xc2, 0x28, 0xfb, 0x2c, 0x05,
   0x2b, 0x67, 0x9a, 0x76, 0x2a, 0xbe, 0x04, 0xc3, 0xaa, 0x44, 0x13, 0x26, 0x49, 0x86, 0x06, 0x99,
   0x9c, 0x42, 0x50, 0xf4, 0x91, 0xef, 0x98, 0x7a, 0x33, 0x54, 0x0b, 0x43, 0xed, 0xcf, 0xac, 0x62,
   0xe4, 0xb3, 0x1c, 0xa9, 0xc9, 0x08, 0xe8, 0x95, 0x80, 0xdf, 0x94, 0xfa, 0x75, 0x8f, 0x3f, 0xa6,
   0x47, 0x07, 0xa7, 0xfc, 0xf3, 0x73, 0x17, 0xba, 0x83, 0x59, 0x3c, 0x19, 0xe6, 0x85, 0x4f, 0xa8,
   0x68, 0x6b, 0x81, 0xb2, 0x71, 0x64, 0xda, 0x8b, 0xf8, 0xeb, 0x0f, 0x4b, 0x70, 0x56, 0x9d, 0x35,
   0x1e, 0x24, 0x0e, 0x5e, 0x63, 0x58, 0xd1, 0xa2, 0x25, 0x22, 0x7c, 0x3b, 0x01, 0x21, 0x78, 0x87,
   0xd4, 0x00, 0x46, 0x57, 0x9f, 0xd3, 0x27, 0x52, 0x4c, 0x36, 0x02, 0xe7, 0xa0, 0xc4, 0xc8, 0x9e,
   0xea, 0xbf, 0x8a, 0xd2, 0x40, 0xc7, 0x38, 0xb5, 0xa3, 0xf7, 0xf2, 0xce, 0xf9, 0x61, 0x15, 0xa1,
   0xe0, 0xae, 0x5d, 0xa4, 0x9b, 0x34, 0x1a, 0x55, 0xad, 0x93, 0x32, 0x30, 0xf5, 0x8c, 0xb1, 0xe3,
   0x1d, 0xf6, 0xe2, 0x2e, 0x82, 0x66, 0xca, 0x60, 0xc0, 0x29, 0x23, 0xab, 0x0d, 0x53, 0x4e, 0x6f,
   0xd5, 0xdb, 0x37, 0x45, 0xde, 0xfd, 0x8e, 0x2f, 0x03, 0xff, 0x6a, 0x72, 0x6d, 0x6c, 0x5b, 0x51,
   0x8d, 0x1b, 0xaf, 0x92, 0xbb, 0xdd, 0xbc, 0x7f, 0x11, 0xd9, 0x5c, 0x41, 0x1f, 0x10, 0x5a, 0xd8,
   0x0a, 0xc1, 0x31, 0x88, 0xa5, 0xcd, 0x7b, 0xbd, 0x2d, 0x74, 0xd0, 0x12, 0xb8, 0xe5, 0xb4, 0xb0,
   0x89, 0x69, 0x97, 0x4a, 0x0c, 0x96, 0x77, 0x7e, 0x65, 0xb9, 0xf1, 0x09, 0xc5, 0x6e, 0xc6, 0x84,
   0x18, 0xf0, 0x7d, 0xec, 0x3a, 0xdc, 0x4d, 0x20, 0x79, 0xee, 0x5f, 0x3e, 0xd7, 0xcb, 0x39, 0x48]

def sboxAt (b : Nat) : Nat := sm4Sbox.getD (b % 256) 0

/-- 32-bit left rotation. -/
def rotl32 (x n : Nat) : Nat := ((x <<< n) ||| (x >>> (32 - n))) % 4294967296

/-- The nonlinear byte substitution τ of SM4. -/
def tau (a : Nat) : Nat :=
  word (sboxAt (a / 16777216)) (sboxAt (a / 65536)) (sboxAt (a / 256)) (sboxAt a)

/-- The linear transform L of the SM4 round function. -/
def ellL (b : Nat) : Nat :=
  b ^^^ rotl32 b 2 ^^^ rotl32 b 10 ^^^ rotl32 b 18 ^^^ rotl32 b 24

/-- The linear transform L' of the SM4 key schedule. -/
def ellK (b : Nat) : Nat := b ^^^ rotl32 b 13 ^^^ rotl32 b 23

/-- The round transform T = L ∘ τ of SM4. -/
def sm4T (x : Nat) : Nat := ellL (tau x)

abbrev Words4 := Nat × Nat × Nat × Nat

/-- One SM4 round: `(x0,x1,x2,x3) ↦ (x1,x2,x3, x0 ⊕ T(x1 ⊕ x2 ⊕ x3 ⊕ rk))`. -/
def sm4Round (st : Words4) (rk : Nat) : Words4 :=
  (st.2.1, st.2.2.1, st.2.2.2, st.1 ^^^ sm4T (st.2.1 ^^^ st.2.2.1 ^^^ st.2.2.2 ^^^ rk))

/-- The final word reversal R of SM4. -/
def sm4Rev (st : Words4) : Words4 := (st.2.2.2, st.2.2.1, st.2.1, st.1)

/-- The SM4 block transformation: 32 rounds followed by the reversal.
Encryption runs it with the round keys in order; decryption with the
round keys reversed (as gmssl's `set_key(key, SM4_DECRYPT)` does). -/
def sm4CryptWords (rks : List Nat) (st : Words4) : Words4 :=
  sm4Rev (rks.foldl sm4Round st)

/-- Invariant: all four words are 32-bit values. -/
def wordsLt (st : Words4) : Prop :=
  st.1 < 4294967296 ∧ st.2.1 < 4294967296 ∧ st.2.2.1 < 4294967296 ∧
    st.2.2.2 < 4294967296

/-! ### Byte-level 16-byte blocks -/

/-- Read a 16-byte block as four 32-bit words. -/
def blkWords (b : Bytes) : Words4 :=
  (word (b.getD 0 0) (b.getD 1 0) (b.getD 2 0) (b.getD 3 0),
   word (b.getD 4 0) (b.getD 5 0) (b.getD 6 0) (b.getD 7 0),
   word (b.getD 8 0) (b.getD 9 0) (b.getD 10 0) (b.getD 11 0),
   word (b.getD 12 0) (b.getD 13 0) (b.getD 14 0) (b.getD 15 0))

/-- Write four 32-bit words back as 16 bytes. -/
def wordsBytes (st : Words4) : Bytes :=
  wordBytes st.1 ++ wordBytes st.2.1 ++ wordBytes st.2.2.1 ++ wordBytes st.2.2.2

/-! ### SM4 key schedule (values taken from GB/T 32907-2016; the round-trip
proofs do not depend on them, but they make the model execute the real
cipher). -/

/-- The key-schedule constants CK: byte `j` of `CK i` is `(4 i + j) * 7 mod 256`. -/
def sm4CK (i : Nat) : Nat :=
  word (4 * i * 7) ((4 * i + 1) * 7) ((4 * i + 2) * 7) ((4 * i + 3) * 7)

/-- The key schedule transform T' = L' ∘ τ. -/
def sm4TK (x : Nat) : Nat := ellK (tau x)

/-- Expand `n` round keys starting at round index `i`. -/
def sm4KeyExpandFrom (i n : Nat) (st : Words4) : List Nat :=
  match n with
  | 0 => []
  | n + 1 =>
    let rk := st.1 ^^^ sm4TK (st.2.1 ^^^ st.2.2.1 ^^^ st.2.2.2 ^^^ sm4CK i)
    rk :: sm4KeyExpandFrom (i + 1) n (st.2.1, st.2.2.1, st.2.2.2, rk)

/-- The 32 SM4 round keys derived from a 16-byte key (FK constants applied
to the master key words first). -/
def sm4RoundKeys (key : Bytes) : List Nat :=
  let mk := blkWords key
  sm4KeyExpandFrom 0 32
    (mk.1 ^^^ 0xa3b1bac6, mk.2.1 ^^^ 0x56aa3350,
     mk.2.2.1 ^^^ 0x677d9197, mk.2.2.2 ^^^ 0xb27022dc)

/-! ### PKCS7 padding (`GMCrypto._pkcs7_pad` / `GMCrypto._pkcs7_unpad`) -/

/-- `GMCrypto._pkcs7_pad`: append `16 - len % 16` copies of that count. -/
def pkcs7Pad (data : Bytes) : Bytes :=
  let padding_length := 16 - data.length % 16
  data ++ List.replicate padding_length padding_length

/-- `GMCrypto._pkcs7_unpad`: `data[:-data[-1]]` with Python slice semantics —
`data[-1]` on empty input raises (modelled as `none`), a last byte of `0`
yields `data[:-0] = data[:0] = b''`, and a count larger than the length
yields the empty string. No padding validity check is performed. -/
def pkcs7Unpad (data : Bytes) : Option Bytes :=
  match data.getLast? with
  | none => none
  | some n => if n = 0 then some [] else some (data.take (data.length - n))

/-! ### The CBC block loop of gmssl `CryptSM4.crypt_cbc` -/

/-- Encrypt one 16-byte block. -/
def sm4EncryptBlock (rks : List Nat) (b : Bytes) : Bytes :=
  wordsBytes (sm4CryptWords rks (blkWords b))

/-- Decrypt one 16-byte block (round keys reversed). -/
def sm4DecryptBlock (rks : List Nat) (b : Bytes) : Bytes :=
  wordsBytes (sm4CryptWords rks.reverse (blkWords b))

def xorBytes (a b : Bytes) : Bytes := List.zipWith (fun x y => x ^^^ y) a b

/-- The raw CBC encryption loop inside `crypt_cbc` (encrypt mode), over a
list of 16-byte blocks: each ciphertext block is the encryption of the
plaintext block XORed with the previous ciphertext block (the IV for the
first).  `crypt_cbc` itself additionally pads its input first — see
`crypt_cbc_encrypt`. -/
def cbcEncrypt (rks : List Nat) (iv : Bytes) : List Bytes → List Bytes
  | [] => []
  | p :: ps =>
    let c := sm4EncryptBlock rks (xorBytes p iv)
    c :: cbcEncrypt rks c ps

/-- The raw CBC decryption loop inside `crypt_cbc` (decrypt mode), over a
list of 16-byte blocks.  `crypt_cbc` itself additionally unpads the
result — see `crypt_cbc_decrypt`. -/
def cbcDecrypt (rks : List Nat) (iv : Bytes) : List Bytes → List Bytes
  | [] => []
  | c :: cs => xorBytes (sm4DecryptBlock rks c) iv :: cbcDecrypt rks c cs

/-! ### Chunking a byte string into 16-byte blocks -/

/-- Split into 16-byte chunks, with a fuel argument so that the
definition reduces by structural recursion. -/
def toBlocksAux : Nat → Bytes → List Bytes
  | 0, _ => []
  | fuel + 1, l => if l = [] then [] else l.take 16 :: toBlocksAux fuel (l.drop 16)

def toBlocks (l : Bytes) : List Bytes := toBlocksAux l.length l

/-! ### gmssl `CryptSM4.crypt_cbc`: the library pads and unpads internally -/

/-- gmssl `crypt_cbc` in encrypt mode: the library PKCS7-pads its input
itself (the same scheme as `pkcs7Pad`), then runs the CBC loop. -/
def crypt_cbc_encrypt (rks : List Nat) (iv data : Bytes) : Bytes :=
  (cbcEncrypt rks iv (toBlocks (pkcs7Pad data))).flatten

/-- The raw CBC-decrypted buffer of `crypt_cbc` in decrypt mode, before
the library's own unpadding. -/
def sm4CbcRaw (rks : List Nat) (iv data : Bytes) : Bytes :=
  (cbcDecrypt rks iv (toBlocks data)).flatten

/-- gmssl `crypt_cbc` in decrypt mode: the CBC loop followed by the
library's own *unchecked* unpadding `data[0:-data[-1]]`, whose slice
semantics coincide with `pkcs7Unpad`.  `none` models the exception on
input that is empty or not a multiple of 16 bytes. -/
def crypt_cbc_decrypt (rks : List Nat) (iv data : Bytes) : Option Bytes :=
  if data.length % 16 = 0 then pkcs7Unpad (sm4CbcRaw rks iv data) else none

/-! ### `GMCrypto.sm4_encrypt` / `GMCrypto.sm4_decrypt` (CBC with PKCS7) -/

/-- `GMCrypto.sm4_encrypt` (gmssl branch): `_pkcs7_pad`, then
`crypt_cbc` — which pads a second time internally, so the real ciphertext
carries two padding layers. -/
def sm4_encrypt (data key iv : Bytes) : Bytes :=
  crypt_cbc_encrypt (sm4RoundKeys key) iv (pkcs7Pad data)

/-- `GMCrypto.sm4_decrypt` (gmssl branch): `crypt_cbc` — which strips one
padding layer internally, unchecked — then `_pkcs7_unpad`.  `none` models
a raised exception; in particular, when the internal unpadding empties
the buffer, `_pkcs7_unpad` raises `IndexError` on `data[-1]`. -/
def sm4_decrypt (ciphertext key iv : Bytes) : Option Bytes :=
  match crypt_cbc_decrypt (sm4RoundKeys key) iv ciphertext with
  | none => none
  | some plaintext => pkcs7Unpad plaintext

/-! ### External primitives and the convenience layer of `utils/crypto.py` -/

/-- External cryptographic primitives that `utils/crypto.py` calls from
libraries outside the repository (hashlib, gmssl SM2/SM3, PBKDF2-HMAC).
They are deterministic functions; the development is parameterised over
them and states the library contracts it relies on as hypotheses. -/
structure Externals where
  sha256hex : Bytes → String
  sm3hash : Bytes → String
  sm2encrypt : Bytes → String → Bytes
  sm2decrypt : Bytes → String → Option Bytes
  kdf : String → Bytes → Bytes

def hexDigit (n : Nat) : Char :=
  if n < 10 then Char.ofNat (48 + n) else Char.ofNat (87 + n)

/-- Python's `bytes.hex()`: two lowercase hex digits per byte. -/
def bytesToHex (bs : Bytes) : String :=
  String.mk (bs.flatMap fun b => [hexDigit (b / 16 % 16), hexDigit (b % 16)])

/-- Result dictionary of `encrypt_file`. -/
structure EncryptedFile where
  encrypted_content : Bytes
  encrypted_key : Bytes
  iv : Bytes
  file_hash : String

/-- `utils.crypto.encrypt_file`: hash the plaintext, SM4-encrypt it, and
SM2-wrap the symmetric key.  The SM4 key and IV that the source draws
from `os.urandom` are explicit arguments. -/
def encrypt_file (E : Externals) (sm4_key iv : Bytes) (file_content : Bytes)
    (recipient_public_key : String) : EncryptedFile :=
  { encrypted_content := sm4_encrypt file_content sm4_key iv
    encrypted_key := E.sm2encrypt sm4_key recipient_public_key
    iv := iv
    file_hash := E.sm3hash file_content }

/-- `utils.crypto.decrypt_file`: SM2-unwrap the symmetric key,
SM4-decrypt, then verify the hash when `expected_hash` is given.
`none` models a raised exception (SM2 failure, SM4 failure, or the
hash-verification `ValueError`). -/
def decrypt_file (E : Externals) (encrypted_content encrypted_key iv : Bytes)
    (private_key : String) (expected_hash : Option String) : Option Bytes :=
  match E.sm2decrypt encrypted_key private_key with
  | none => none
  | some sm4_key =>
    match sm4_decrypt encrypted_content sm4_key iv with
    | none => none
    | some decrypted_content =>
      match expected_hash with
      | some h =>
        if E.sm3hash decrypted_content = h then some decrypted_content else none
      | none => some decrypted_content

/-- `GMCrypto.encrypt_private_key` with the random salt passed explicitly;
the private key argument is already in byte form (`bytes.fromhex`). -/
def encrypt_private_key (E : Externals) (private_key_bytes : Bytes)
    (password : String) (salt : Bytes) : Bytes :=
  let derived_key := E.kdf password salt
  sm4_encrypt private_key_bytes (derived_key.take 16) ((derived_key.drop 16).take 16)

/-- `GMCrypto.decrypt_private_key`: derive the key from the password and
salt, SM4-decrypt the sealed key, hex-encode the result.  No check of any
kind ties the result to the password. -/
def decrypt_private_key (E : Externals) (encrypted_key : Bytes)
    (password : String) (salt : Bytes) : Option String :=
  let derived_key := E.kdf password salt
  (sm4_decrypt encrypted_key (derived_key.take 16)
    ((derived_key.drop 16).take 16)).map bytesToHex

/-- `GMCrypto.sm2_verify`, fallback branch (`gmssl` unavailable): the
source comments "Fallback 无法真正验证" and returns `True` for every
input. -/
def sm2_verify_fallback (data : Bytes) (signature : String)
    (public_key : String) : Bool :=
  true

/-! ### Mock IPFS content store
(`apps/blockchain/services.py`, `MockIPFSClient` / `IPFSService`) -/

/-- Python dict update (`d[k] = v`), modelled by its effect on lookups. -/
def dictSet {α : Type} (m : String → Option α) (k : String) (v : α) :
    String → Option α :=
  fun q => if q = k then some v else m q

/-- `MockIPFSClient._storage`: class-level dict keyed by CID. -/
abbrev IPFSStorage := String → Option Bytes

/-- `MockIPFSClient.add_bytes`: the fake CID is `"Qm"` followed by the
first 44 hex digits of the SHA-256 of the content, and the bytes are
stored under that CID. -/
def add_bytes (sha256hex : Bytes → String) (storage : IPFSStorage)
    (content : Bytes) : String × IPFSStorage :=
  let content_hash := sha256hex content
  let fake_cid := "Qm" ++ content_hash.take 44
  (fake_cid, dictSet storage fake_cid content)

/-- `MockIPFSClient.cat`: lookup; `none` models `FileNotFoundError`. -/
def cat (storage : IPFSStorage) (cid : String) : Option Bytes := storage cid

/-- `IPFSService.upload` in mock mode: calls `add_bytes` and returns the
CID unchanged (the client returns a plain string, not a dict). -/
def ipfs_upload (sha256hex : Bytes → String) (storage : IPFSStorage)
    (content : Bytes) : String × IPFSStorage :=
  add_bytes sha256hex storage content

/-- `IPFSService.download` in mock mode: calls `cat`. -/
def ipfs_download (storage : IPFSStorage) (ipfs_hash : String) : Option Bytes :=
  cat storage ipfs_hash

/-! ### Mock Fabric ledger
(`apps/blockchain/services.py`, `MockFabricGateway` / `BlockchainService`) -/

/-- The per-paper record kept in `MockFabricGateway._ledger`. -/
structure LedgerRecord where
  paper_id : String
  exam_id : String
  subject : String
  ipfs_hash : String
  file_hash : String
  unlock_time : String
  uploaded_by : String
  status : String
  created_at : String
  updated_at : String
  tx_id : String
  block_number : Nat
deriving DecidableEq

/-- An entry of `MockFabricGateway._access_logs`. -/
structure AccessLogEntry where
  log_id : String
  paper_id : String
  user_id : String
  action : String
  ip_address : String
  details : String
  timestamp : String
deriving DecidableEq

/-- The class-level state of `MockFabricGateway`. -/
structure GatewayState where
  ledger : String → Option LedgerRecord
  access_logs : String → List AccessLogEntry
  tx_counter : Nat

/-- A fresh ledger instance (empty class-level storage, counter 0). -/
def freshGateway : GatewayState :=
  { ledger := fun _ => none, access_logs := fun _ => [], tx_counter := 0 }

/-- The dict returned by `invoke_chaincode`. -/
structure InvokeResult where
  tx_id : String
  block_number : Nat
  status : String
deriving DecidableEq

/-- `MockFabricGateway.invoke_chaincode`.  The transaction id — a SHA-256
hex digest over the counter, function name and argument list — and the
wall-clock timestamp are supplied as external functions.  A `none` first
component models the `ValueError` Python raises when the argument list
does not match the branch's unpacking (the counter is consumed anyway). -/
def invoke_chaincode (mkTxId : Nat → String → List String → String)
    (timestamp : String) (st : GatewayState) (function : String)
    (args : List String) : Option InvokeResult × GatewayState :=
  let counter := st.tx_counter + 1
  let tx_id := mkTxId counter function args
  let result : InvokeResult :=
    { tx_id := tx_id, block_number := counter, status := "SUCCESS" }
  if function = "StorePaper" then
    match args with
    | [paper_id, exam_id, subject, ipfs_hash, file_hash, unlock_time,
       uploaded_by] =>
      (some result,
       { st with
         tx_counter := counter
         ledger := dictSet st.ledger paper_id
           { paper_id := paper_id, exam_id := exam_id, subject := subject,
             ipfs_hash := ipfs_hash, file_hash := file_hash,
             unlock_time := unlock_time, uploaded_by := uploaded_by,
             status := "locked", created_at := timestamp,
             updated_at := timestamp, tx_id := tx_id,
             block_number := counter } })
    | _ => (none, { st with tx_counter := counter })
  else if function = "UpdatePaperStatus" then
    match args with
    | [paper_id, new_status] =>
      match st.ledger paper_id with
      | some found =>
        (some result,
         { st with
           tx_counter := counter
           ledger := dictSet st.ledger paper_id
             { found with status := new_status, updated_at := timestamp } })
      | none => (some result, { st with tx_counter := counter })
    | _ => (none, { st with tx_counter := counter })
  else if function = "RecordAccess" then
    match args with
    | [paper_id, user_id, action, ip_address, details] =>
      let log_entry : AccessLogEntry :=
        { log_id := "LOG_" ++ tx_id.take 16, paper_id := paper_id,
          user_id := user_id, action := action, ip_address := ip_address,
          details := details, timestamp := timestamp }
      (some result,
       { st with
         tx_counter := counter
         access_logs := fun q =>
           if q = paper_id then st.access_logs paper_id ++ [log_entry]
           else st.access_logs q })
    | _ => (none, { st with tx_counter := counter })
  else (some result, { st with tx_counter := counter })

/-- One entry of the list returned by the `GetPaperHistory` branch. -/
structure HistoryEntry where
  tx_id : String
  timestamp : String
  is_delete : Bool
  paper : LedgerRecord
deriving DecidableEq

inductive QueryResult where
  | missing
  | paper (r : LedgerRecord)
  | history (entries : List HistoryEntry)
  | logs (entries : List AccessLogEntry)
deriving DecidableEq

/-- `MockFabricGateway.query_chaincode` for the branches the claims use.
Note that `GetPaperHistory` returns a single entry built from the
*current* ledger projection of the paper. -/
def query_chaincode (st : GatewayState) (function : String)
    (args : List String) : QueryResult :=
  let paper_id := args.headD ""
  if function = "GetPaper" then
    match st.ledger paper_id with
    | some r => .paper r
    | none => .missing
  else if function = "GetPaperHistory" then
    match st.ledger paper_id with
    | some r =>
      .history [{ tx_id := r.tx_id, timestamp := r.created_at,
                  is_delete := false, paper := r }]
    | none => .history []
  else if function = "GetPaperAccessLogs" then
    .logs (st.access_logs paper_id)
  else .missing

/-- `BlockchainService.update_paper_status`: forwards to the gateway's
`UpdatePaperStatus` with no validation of its own. -/
def update_paper_status (mkTxId : Nat → String → List String → String)
    (timestamp : String) (st : GatewayState) (paper_id new_status : String) :
    Option InvokeResult × GatewayState :=
  invoke_chaincode mkTxId timestamp st "UpdatePaperStatus" [paper_id, new_status]

/-- Argument bundle of a `StorePaper` commit. -/
structure StoreArgs where
  paper_id : String
  exam_id : String
  subject : String
  ipfs_hash : String
  file_hash : String
  unlock_time : String
  uploaded_by : String

def storeArgsList (a : StoreArgs) : List String :=
  [a.paper_id, a.exam_id, a.subject, a.ipfs_hash, a.file_hash, a.unlock_time,
   a.uploaded_by]

/-- `BlockchainService.store_paper`: forwards to `StorePaper`. -/
def store_paper (mkTxId : Nat → String → List String → String)
    (timestamp : String) (st : GatewayState) (a : StoreArgs) :
    Option InvokeResult × GatewayState :=
  invoke_chaincode mkTxId timestamp st "StorePaper" (storeArgsList a)

/-- Run a sequence of `StorePaper` commits, collecting the results. -/
def runStorePapers (mkTxId : Nat → String → List String → String)
    (timestamp : String) (st : GatewayState) :
    List StoreArgs → List (Option InvokeResult) × GatewayState
  | [] => ([], st)
  | a :: rest =>
    let step := store_paper mkTxId timestamp st a
    let rest' := runStorePapers mkTxId timestamp step.2 rest
    (step.1 :: rest'.1, rest'.2)

/-! ### The release (decrypt) endpoint (`ExamPaperViewSet.decrypt` in
`apps/exams/views.py`) -/

/-- The `ExamPaper` database fields the decrypt endpoint reads and
writes.  `encrypted_key` and `encryption_iv` are stored hex-encoded and
converted with `bytes.fromhex` on use; they are modelled in byte form.
Timestamps are modelled as naturals. -/
structure PaperState where
  ipfs_hash : String
  encrypted_key : Bytes
  encryption_iv : Bytes
  file_hash : String
  unlock_time : Option Nat
  original_filename : String
  status : String
deriving DecidableEq

/-- The requesting user's role and sealed keypair row
(`user.keypair.encrypted_private_key`, `user.keypair.salt`). -/
structure UserState where
  role : String
  encrypted_private_key : Bytes
  salt : Bytes

/-- The responses of the decrypt endpoint.  `lockedError` carries the
formatted 403 message; `forbidden` is the 403 role rejection;
`badPassword` the 400; `decryptFailed` the generic 500 for a raised
exception; `integrityError` the 500 hash-mismatch rejection; `ok` the
success payload (the base64 transport encoding is omitted). -/
inductive DecryptResponse where
  | lockedError (msg : String)
  | forbidden
  | badPassword
  | decryptFailed
  | integrityError
  | ok (filename : String) (content : Bytes)
deriving DecidableEq

/-- The f-string `f"试卷将在 {paper.unlock_time} 后解锁"`: a function of
the unlock time alone. -/
def lockedMessage (t : Nat) : String := "试卷将在 " ++ toString t ++ " 后解锁"

/-- The body of the decrypt endpoint after the time-lock check: role
check, password check, IPFS download, private-key unsealing, SM2 key
unwrap, SM4 decryption, hash verification, status update.  The access-log
row insertion (a write to a different table) is not modelled. -/
def decryptBody (E : Externals) (user : UserState)
    (check_password : String → Bool) (password : String)
    (storage : IPFSStorage) (paper : PaperState) :
    DecryptResponse × PaperState :=
  if ¬(user.role = "superintendent" ∨ user.role = "admin" ∨ user.role = "coe")
  then (.forbidden, paper)
  else if password = "" ∨ ¬check_password password then (.badPassword, paper)
  else
    match ipfs_download storage paper.ipfs_hash with
    | none => (.decryptFailed, paper)
    | some encrypted_content =>
      match decrypt_private_key E user.encrypted_private_key password
        user.salt with
      | none => (.decryptFailed, paper)
      | some user_private_key =>
        match E.sm2decrypt paper.encrypted_key user_private_key with
        | none => (.decryptFailed, paper)
        | some sm4_key =>
          match sm4_decrypt encrypted_content sm4_key paper.encryption_iv with
          | none => (.decryptFailed, paper)
          | some decrypted_content =>
            if E.sha256hex decrypted_content ≠ paper.file_hash then
              (.integrityError, paper)
            else
              (.ok paper.original_filename decrypted_content,
               { paper with status := "decrypted" })

/-- `ExamPaperViewSet.decrypt`: the time-lock guard
(`if paper.unlock_time and timezone.now() < paper.unlock_time`) followed
by the body. -/
def decryptView (E : Externals) (now : Nat) (user : UserState)
    (check_password : String → Bool) (password : String)
    (storage : IPFSStorage) (paper : PaperState) :
    DecryptResponse × PaperState :=
  match paper.unlock_time with
  | some t =>
    if now < t then (.lockedError (lockedMessage t), paper)
    else decryptBody E user check_password password storage paper
  | none => decryptBody E user check_password password storage paper

/-! ### Concrete test fixtures used by witnesses and counterexamples -/

/-- Concrete external primitives for witnesses: hex encoding as the hash
model, transparent SM2 (wrap = identity, unwrap always succeeds), and a
fixed 32-byte KDF output. -/
def testExternals : Externals :=
  { sha256hex := bytesToHex
    sm3hash := bytesToHex
    sm2encrypt := fun d _ => d
    sm2decrypt := fun c _ => some c
    kdf := fun _ _ => List.range 32 }

def testUser : UserState :=
  { role := "coe",
    encrypted_private_key := encrypt_private_key testExternals [171] "pw" [],
    salt := [] }

/-- The SM4 key `decrypt_private_key` derives under `testExternals`. -/
def c10Key : Bytes := (List.range 32).take 16

/-- The IV `decrypt_private_key` derives under `testExternals`. -/
def c10Iv : Bytes := ((List.range 32).drop 16).take 16

/-- A single-block sealed key whose raw CBC decryption is a full
`0x10`-padding block: gmssl's internal unpadding empties the buffer and
the outer `_pkcs7_unpad` raises `IndexError`. -/
def c10Ct : Bytes :=
  sm4EncryptBlock (sm4RoundKeys c10Key) (xorBytes (List.replicate 16 16) c10Iv)

def testKey : Bytes := List.replicate 16 3

def testIv : Bytes := List.replicate 16 4

def testPlain : Bytes := [10, 20]

def testPaper : PaperState :=
  { ipfs_hash := "cidX", encrypted_key := testKey, encryption_iv := testIv,
    file_hash := bytesToHex testPlain, unlock_time := some 100,
    original_filename := "exam.pdf", status := "on_chain" }

def testStorage : IPFSStorage :=
  fun h => if h = "cidX" then some (sm4_encrypt testPlain testKey testIv)
    else none

def mkTxIdTest : Nat → String → List String → String :=
  fun n f _ => f ++ toString n

/-- Ledger after one fresh commit of paper `p1`. -/
def ledgerAfterStore : GatewayState :=
  (invoke_chaincode mkTxIdTest "t1" freshGateway "StorePaper"
    ["p1", "e1", "math", "cid1", "h1", "2026-06-01T09:00:00", "u1"]).2

/-- Ledger after that commit followed by a `released` status update. -/
def ledgerAfterRelease : GatewayState :=
  (update_paper_status mkTxIdTest "t2" ledgerAfterStore "p1" "released").2

/-- The `p1` record as committed (status `locked`). -/
def storedRecord : LedgerRecord :=
  { paper_id := "p1", exam_id := "e1", subject := "math", ipfs_hash := "cid1",
    file_hash := "h1", unlock_time := "2026-06-01T09:00:00",
    uploaded_by := "u1", status := "locked", created_at := "t1",
    updated_at := "t1", tx_id := "StorePaper1", block_number := 1 }

/-! ## Theorems -/

theorem word_lt (b0 b1 b2 b3 : Nat) : word b0 b1 b2 b3 < 4294967296 := by
  unfold word
  have h0 := Nat.mod_lt b0 (show 0 < 256 by norm_num)
  have h1 := Nat.mod_lt b1 (show 0 < 256 by norm_num)
  have h2 := Nat.mod_lt b2 (show 0 < 256 by norm_num)
  have h3 := Nat.mod_lt b3 (show 0 < 256 by norm_num)
  omega

theorem word_wordBytes (w : Nat) (hw : w < 4294967296) :
    word (w / 16777216 % 256) (w / 65536 % 256) (w / 256 % 256) (w % 256) = w := by
  unfold word
  omega

theorem wordBytes_word (b0 b1 b2 b3 : Nat)
    (h0 : b0 < 256) (h1 : b1 < 256) (h2 : b2 < 256) (h3 : b3 < 256) :
    wordBytes (word b0 b1 b2 b3) = [b0, b1, b2, b3] := by
  unfold word wordBytes
  have e0 : (b0 % 256 * 16777216 + b1 % 256 * 65536 + b2 % 256 * 256 + b3 % 256)
      / 16777216 % 256 = b0 := by omega
  have e1 : (b0 % 256 * 16777216 + b1 % 256 * 65536 + b2 % 256 * 256 + b3 % 256)
      / 65536 % 256 = b1 := by omega
  have e2 : (b0 % 256 * 16777216 + b1 % 256 * 65536 + b2 % 256 * 256 + b3 % 256)
      / 256 % 256 = b2 := by omega
  have e3 : (b0 % 256 * 16777216 + b1 % 256 * 65536 + b2 % 256 * 256 + b3 % 256)
      % 256 = b3 := by omega
  rw [e0, e1, e2, e3]

theorem rotl32_lt (x n : Nat) : rotl32 x n < 4294967296 :=
  Nat.mod_lt _ (by norm_num)

theorem tau_lt (a : Nat) : tau a < 4294967296 := word_lt _ _ _ _

theorem lt_two_pow_32 {a : Nat} (h : a < 4294967296) : a < 2 ^ 32 := by
  norm_num at *; omega

theorem xor_lt32 {a b : Nat} (ha : a < 4294967296) (hb : b < 4294967296) :
    a ^^^ b < 4294967296 := by
  have := Nat.xor_lt_two_pow (n := 32) (lt_two_pow_32 ha) (lt_two_pow_32 hb)
  norm_num at this; omega

theorem ellL_lt (b : Nat) (hb : b < 4294967296) : ellL b < 4294967296 :=
  xor_lt32 (xor_lt32 (xor_lt32 (xor_lt32 hb (rotl32_lt _ _)) (rotl32_lt _ _))
    (rotl32_lt _ _)) (rotl32_lt _ _)

theorem sm4T_lt (x : Nat) : sm4T x < 4294967296 := ellL_lt _ (tau_lt x)

theorem sm4Rev_sm4Rev (st : Words4) : sm4Rev (sm4Rev st) = st := rfl

theorem xor_left_comm (a b c : Nat) : a ^^^ (b ^^^ c) = b ^^^ (a ^^^ c) := by
  rw [← Nat.xor_assoc, Nat.xor_comm a b, Nat.xor_assoc]

theorem sm4Round_rev_cancel (st : Words4) (k : Nat) :
    sm4Round (sm4Rev (sm4Round st k)) k = sm4Rev st := by
  obtain ⟨a, b, c, d⟩ := st
  simp only [sm4Round, sm4Rev]
  refine Prod.ext rfl (Prod.ext rfl (Prod.ext rfl ?_))
  show a ^^^ sm4T (b ^^^ c ^^^ d ^^^ k) ^^^ sm4T (d ^^^ c ^^^ b ^^^ k) = a
  have harg : d ^^^ c ^^^ b ^^^ k = b ^^^ c ^^^ d ^^^ k := by
    simp only [Nat.xor_assoc]
    rw [xor_left_comm d c, xor_left_comm d b, xor_left_comm c b]
  rw [harg, Nat.xor_cancel_right]

theorem sm4_foldl_inverse (rks : List Nat) (st : Words4) :
    rks.reverse.foldl sm4Round (sm4Rev (rks.foldl sm4Round st)) = sm4Rev st := by
  induction rks generalizing st with
  | nil => rfl
  | cons k ks ih =>
    rw [List.reverse_cons, List.foldl_append, List.foldl_cons, List.foldl_cons,
      List.foldl_nil, ih (sm4Round st k), sm4Round_rev_cancel]

theorem sm4CryptWords_inverse (rks : List Nat) (st : Words4) :
    sm4CryptWords rks.reverse (sm4CryptWords rks st) = st := by
  unfold sm4CryptWords
  rw [sm4_foldl_inverse, sm4Rev_sm4Rev]

theorem sm4Round_wordsLt (st : Words4) (k : Nat) (h : wordsLt st) :
    wordsLt (sm4Round st k) := by
  obtain ⟨a, b, c, d⟩ := st
  obtain ⟨h1, h2, h3, h4⟩ := h
  exact ⟨h2, h3, h4, xor_lt32 h1 (sm4T_lt _)⟩

theorem sm4_foldl_wordsLt (rks : List Nat) (st : Words4) (h : wordsLt st) :
    wordsLt (rks.foldl sm4Round st) := by
  induction rks generalizing st with
  | nil => exact h
  | cons k ks ih => exact ih _ (sm4Round_wordsLt st k h)

theorem sm4Rev_wordsLt (st : Words4) (h : wordsLt st) : wordsLt (sm4Rev st) := by
  obtain ⟨a, b, c, d⟩ := st
  obtain ⟨h1, h2, h3, h4⟩ := h
  exact ⟨h4, h3, h2, h1⟩

theorem sm4CryptWords_wordsLt (rks : List Nat) (st : Words4) (h : wordsLt st) :
    wordsLt (sm4CryptWords rks st) :=
  sm4Rev_wordsLt _ (sm4_foldl_wordsLt rks st h)

theorem blkWords_wordsLt (b : Bytes) : wordsLt (blkWords b) :=
  ⟨word_lt _ _ _ _, word_lt _ _ _ _, word_lt _ _ _ _, word_lt _ _ _ _⟩

theorem wordsBytes_length (st : Words4) : (wordsBytes st).length = 16 := by
  simp [wordsBytes, wordBytes]

theorem wordBytes_lt (w : Nat) : ∀ x ∈ wordBytes w, x < 256 := by
  intro x hx
  simp only [wordBytes, List.mem_cons, List.not_mem_nil, or_false] at hx
  rcases hx with rfl | rfl | rfl | rfl <;> omega

theorem wordsBytes_lt (st : Words4) : ∀ x ∈ wordsBytes st, x < 256 := by
  intro x hx
  simp only [wordsBytes, List.mem_append] at hx
  rcases hx with ((h | h) | h) | h <;> exact wordBytes_lt _ x h

theorem blkWords_wordsBytes (st : Words4) (h : wordsLt st) :
    blkWords (wordsBytes st) = st := by
  obtain ⟨a, b, c, d⟩ := st
  obtain ⟨h1, h2, h3, h4⟩ := h
  simp only [blkWords, wordsBytes, wordBytes]
  show (word (a / 16777216 % 256) (a / 65536 % 256) (a / 256 % 256) (a % 256),
        word (b / 16777216 % 256) (b / 65536 % 256) (b / 256 % 256) (b % 256),
        word (c / 16777216 % 256) (c / 65536 % 256) (c / 256 % 256) (c % 256),
        word (d / 16777216 % 256) (d / 65536 % 256) (d / 256 % 256) (d % 256)) =
      (a, b, c, d)
  rw [word_wordBytes a h1, word_wordBytes b h2, word_wordBytes c h3,
    word_wordBytes d h4]

theorem wordsBytes_blkWords (b : Bytes) (hlen : b.length = 16)
    (hb : ∀ x ∈ b, x < 256) : wordsBytes (blkWords b) = b := by
  obtain _ | ⟨b0, b⟩ := b; · simp at hlen
  obtain _ | ⟨b1, b⟩ := b; · simp at hlen
  obtain _ | ⟨b2, b⟩ := b; · simp at hlen
  obtain _ | ⟨b3, b⟩ := b; · simp at hlen
  obtain _ | ⟨b4, b⟩ := b; · simp at hlen
  obtain _ | ⟨b5, b⟩ := b; · simp at hlen
  obtain _ | ⟨b6, b⟩ := b; · simp at hlen
  obtain _ | ⟨b7, b⟩ := b; · simp at hlen
  obtain _ | ⟨b8, b⟩ := b; · simp at hlen
  obtain _ | ⟨b9, b⟩ := b; · simp at hlen
  obtain _ | ⟨b10, b⟩ := b; · simp at hlen
  obtain _ | ⟨b11, b⟩ := b; · simp at hlen
  obtain _ | ⟨b12, b⟩ := b; · simp at hlen
  obtain _ | ⟨b13, b⟩ := b; · simp at hlen
  obtain _ | ⟨b14, b⟩ := b; · simp at hlen
  obtain _ | ⟨b15, b⟩ := b; · simp at hlen
  obtain rfl : b = [] := by
    simp only [List.length_cons] at hlen
    exact List.eq_nil_of_length_eq_zero (by omega)
  have h0 : b0 < 256 := hb _ (by simp)
  have h1 : b1 < 256 := hb _ (by simp)
  have h2 : b2 < 256 := hb _ (by simp)
  have h3 : b3 < 256 := hb _ (by simp)
  have h4 : b4 < 256 := hb _ (by simp)
  have h5 : b5 < 256 := hb _ (by simp)
  have h6 : b6 < 256 := hb _ (by simp)
  have h7 : b7 < 256 := hb _ (by simp)
  have h8 : b8 < 256 := hb _ (by simp)
  have h9 : b9 < 256 := hb _ (by simp)
  have h10 : b10 < 256 := hb _ (by simp)
  have h11 : b11 < 256 := hb _ (by simp)
  have h12 : b12 < 256 := hb _ (by simp)
  have h13 : b13 < 256 := hb _ (by simp)
  have h14 : b14 < 256 := hb _ (by simp)
  have h15 : b15 < 256 := hb _ (by simp)
  have e : blkWords [b0, b1, b2, b3, b4, b5, b6, b7, b8, b9, b10, b11, b12,
      b13, b14, b15] =
      (word b0 b1 b2 b3, word b4 b5 b6 b7, word b8 b9 b10 b11,
        word b12 b13 b14 b15) := rfl
  rw [e]
  unfold wordsBytes
  rw [wordBytes_word b0 b1 b2 b3 h0 h1 h2 h3,
    wordBytes_word b4 b5 b6 b7 h4 h5 h6 h7,
    wordBytes_word b8 b9 b10 b11 h8 h9 h10 h11,
    wordBytes_word b12 b13 b14 b15 h12 h13 h14 h15]
  rfl

theorem pkcs7Pad_length (data : Bytes) :
    (pkcs7Pad data).length = data.length + (16 - data.length % 16) := by
  simp [pkcs7Pad]

theorem pkcs7Pad_length_mod (data : Bytes) : (pkcs7Pad data).length % 16 = 0 := by
  rw [pkcs7Pad_length]
  have := Nat.mod_lt data.length (show 0 < 16 by norm_num)
  omega

theorem pkcs7Pad_lt (data : Bytes) (hb : ∀ x ∈ data, x < 256) :
    ∀ x ∈ pkcs7Pad data, x < 256 := by
  intro x hx
  simp only [pkcs7Pad, List.mem_append, List.mem_replicate] at hx
  rcases hx with h | ⟨-, rfl⟩
  · exact hb x h
  · omega

theorem pkcs7Unpad_pkcs7Pad (data : Bytes) :
    pkcs7Unpad (pkcs7Pad data) = some data := by
  have hn : 16 - data.length % 16 ≠ 0 := by
    have := Nat.mod_lt data.length (show 0 < 16 by norm_num)
    omega
  obtain ⟨m, hm⟩ := Nat.exists_eq_succ_of_ne_zero hn
  unfold pkcs7Unpad pkcs7Pad
  simp only [hm, List.replicate_succ']
  rw [← List.append_assoc, List.getLast?_concat]
  simp only [Option.some.injEq]
  rw [if_neg (by omega)]
  have hlen : (data ++ List.replicate m (m + 1) ++ [m + 1]).length =
      data.length + (m + 1) := by simp
  rw [hlen]
  have he : data.length + (m + 1) - (m + 1) = data.length := by omega
  rw [he, List.take_append_of_le_length (by simp),
    List.take_append_of_le_length (by simp), List.take_length]

theorem xorBytes_length (a b : Bytes) :
    (xorBytes a b).length = min a.length b.length := by
  simp [xorBytes]

theorem xorBytes_lt (a : Bytes) : ∀ (b : Bytes), (∀ x ∈ a, x < 256) →
    (∀ x ∈ b, x < 256) → ∀ x ∈ xorBytes a b, x < 256 := by
  induction a with
  | nil => intro b _ _ x hx; simp [xorBytes] at hx
  | cons a0 as ih =>
    intro b ha hb x hx
    cases b with
    | nil => simp [xorBytes] at hx
    | cons b0 bs =>
      simp only [xorBytes, List.zipWith_cons_cons, List.mem_cons] at hx
      rcases hx with rfl | hx
      · have h1 : a0 < 256 := ha _ (by simp)
        have h2 : b0 < 256 := hb _ (by simp)
        have h3 : a0 ^^^ b0 < 2 ^ 8 :=
          Nat.xor_lt_two_pow (by norm_num; omega) (by norm_num; omega)
        norm_num at h3; omega
      · exact ih bs (fun y hy => ha y (List.mem_cons_of_mem _ hy))
          (fun y hy => hb y (List.mem_cons_of_mem _ hy)) x hx

theorem xorBytes_cancel (a b : Bytes) (h : a.length = b.length) :
    xorBytes (xorBytes a b) b = a := by
  unfold xorBytes
  induction a generalizing b with
  | nil => simp
  | cons a0 as ih =>
    cases b with
    | nil => simp at h
    | cons b0 bs =>
      simp only [List.zipWith_cons_cons, List.cons.injEq]
      exact ⟨Nat.xor_cancel_right _ _, ih bs (by simpa using h)⟩

theorem sm4EncryptBlock_length (rks : List Nat) (b : Bytes) :
    (sm4EncryptBlock rks b).length = 16 := wordsBytes_length _

theorem sm4EncryptBlock_lt (rks : List Nat) (b : Bytes) :
    ∀ x ∈ sm4EncryptBlock rks b, x < 256 := wordsBytes_lt _

theorem sm4Block_roundtrip (rks : List Nat) (b : Bytes) (hlen : b.length = 16)
    (hb : ∀ x ∈ b, x < 256) :
    sm4DecryptBlock rks (sm4EncryptBlock rks b) = b := by
  unfold sm4DecryptBlock sm4EncryptBlock
  rw [blkWords_wordsBytes _ (sm4CryptWords_wordsLt rks _ (blkWords_wordsLt b)),
    sm4CryptWords_inverse, wordsBytes_blkWords b hlen hb]

theorem cbcEncrypt_blocks (rks : List Nat) (iv : Bytes) (ps : List Bytes) :
    ∀ c ∈ cbcEncrypt rks iv ps, c.length = 16 ∧ ∀ x ∈ c, x < 256 := by
  induction ps generalizing iv with
  | nil => simp [cbcEncrypt]
  | cons p ps ih =>
    intro c hc
    simp only [cbcEncrypt, List.mem_cons] at hc
    rcases hc with rfl | hc
    · exact ⟨sm4EncryptBlock_length _ _, sm4EncryptBlock_lt _ _⟩
    · exact ih _ c hc

theorem cbcDecrypt_cbcEncrypt (rks : List Nat) (iv : Bytes)
    (hivlen : iv.length = 16) (hiv : ∀ x ∈ iv, x < 256) (ps : List Bytes)
    (hps : ∀ p ∈ ps, p.length = 16 ∧ ∀ x ∈ p, x < 256) :
    cbcDecrypt rks iv (cbcEncrypt rks iv ps) = ps := by
  induction ps generalizing iv with
  | nil => rfl
  | cons p ps ih =>
    obtain ⟨hplen, hp⟩ := hps p (by simp)
    have hxlen : (xorBytes p iv).length = 16 := by
      rw [xorBytes_length, hplen, hivlen]; omega
    have hxlt : ∀ x ∈ xorBytes p iv, x < 256 := xorBytes_lt p iv hp hiv
    simp only [cbcEncrypt, cbcDecrypt, List.cons.injEq]
    constructor
    · rw [sm4Block_roundtrip rks _ hxlen hxlt, xorBytes_cancel p iv (by omega)]
    · exact ih _ (sm4EncryptBlock_length _ _) (sm4EncryptBlock_lt _ _)
        (fun q hq => hps q (List.mem_cons_of_mem _ hq))

theorem toBlocksAux_congr : ∀ (f f' : Nat) (l : Bytes), l.length ≤ f →
    l.length ≤ f' → toBlocksAux f l = toBlocksAux f' l := by
  intro f
  induction f with
  | zero =>
    intro f' l hf hf'
    have : l = [] := List.eq_nil_of_length_eq_zero (by omega)
    subst this
    cases f' <;> simp [toBlocksAux]
  | succ f ih =>
    intro f' l hf hf'
    cases f' with
    | zero =>
      have : l = [] := List.eq_nil_of_length_eq_zero (by omega)
      subst this
      simp [toBlocksAux]
    | succ f' =>
      by_cases hl : l = []
      · subst hl; simp [toBlocksAux]
      · have hpos := List.length_pos.mpr hl
        simp only [toBlocksAux, if_neg hl]
        rw [ih f' (l.drop 16) (by simp only [List.length_drop]; omega)
          (by simp only [List.length_drop]; omega)]

theorem toBlocks_eq (l : Bytes) :
    toBlocks l = if l = [] then [] else l.take 16 :: toBlocks (l.drop 16) := by
  by_cases hl : l = []
  · subst hl; simp [toBlocks, toBlocksAux]
  · have hpos := List.length_pos.mpr hl
    unfold toBlocks
    cases hn : l.length with
    | zero => omega
    | succ n =>
      simp only [toBlocksAux, if_neg hl]
      rw [toBlocksAux_congr n (l.drop 16).length (l.drop 16)
        (by simp only [List.length_drop]; omega) (le_refl _)]

theorem toBlocks_flatten (bs : List Bytes) (h : ∀ b ∈ bs, b.length = 16) :
    toBlocks bs.flatten = bs := by
  induction bs with
  | nil => simp [toBlocks, toBlocksAux]
  | cons b rest ih =>
    have hb : b.length = 16 := h b (by simp)
    have hbne : b ++ rest.flatten ≠ [] := by
      intro hc
      have := congrArg List.length hc
      simp [hb] at this
    rw [List.flatten_cons, toBlocks_eq, if_neg hbne, ← hb, List.take_left,
      List.drop_left, ih (fun q hq => h q (List.mem_cons_of_mem _ hq))]

theorem flatten_toBlocks (l : Bytes) : (toBlocks l).flatten = l := by
  suffices h : ∀ n (l : Bytes), l.length = n → (toBlocks l).flatten = l from
    h _ l rfl
  intro n
  induction n using Nat.strong_induction_on with
  | _ n ih =>
    intro l hn
    by_cases hl : l = []
    · subst hl; simp [toBlocks, toBlocksAux]
    · rw [toBlocks_eq, if_neg hl, List.flatten_cons]
      have hlt : (l.drop 16).length < n := by
        have := List.length_pos.mpr hl
        simp only [List.length_drop]
        omega
      rw [ih _ hlt (l.drop 16) rfl, List.take_append_drop]

theorem toBlocks_spec (l : Bytes) (hmod : l.length % 16 = 0)
    (hlt : ∀ x ∈ l, x < 256) :
    ∀ b ∈ toBlocks l, b.length = 16 ∧ ∀ x ∈ b, x < 256 := by
  suffices h : ∀ n (l : Bytes), l.length = n → l.length % 16 = 0 →
      (∀ x ∈ l, x < 256) → ∀ b ∈ toBlocks l, b.length = 16 ∧ ∀ x ∈ b, x < 256
    from h _ l rfl hmod hlt
  intro n
  induction n using Nat.strong_induction_on with
  | _ n ih =>
    intro l hn hmod' hlt'
    by_cases hl : l = []
    · subst hl; simp [toBlocks, toBlocksAux]
    · intro b hb
      have hpos := List.length_pos.mpr hl
      have hge : 16 ≤ l.length := by omega
      rw [toBlocks_eq, if_neg hl] at hb
      rcases List.mem_cons.mp hb with rfl | hb
      · refine ⟨by rw [List.length_take]; omega, ?_⟩
        exact fun x hx => hlt' x (List.take_subset 16 l hx)
      · have hdlt : (l.drop 16).length < n := by
          simp only [List.length_drop]; omega
        refine ih _ hdlt (l.drop 16) rfl ?_
          (fun x hx => hlt' x (List.drop_subset 16 l hx)) b hb
        simp only [List.length_drop]
        omega

theorem cbcEncrypt_flatten_mod (rks : List Nat) (iv : Bytes)
    (ps : List Bytes) : ((cbcEncrypt rks iv ps).flatten).length % 16 = 0 := by
  induction ps generalizing iv with
  | nil => rfl
  | cons p ps ih =>
    simp only [cbcEncrypt, List.flatten_cons, List.length_append,
      sm4EncryptBlock_length]
    have := ih (sm4EncryptBlock rks (xorBytes p iv))
    omega

theorem sm4_decrypt_sm4_encrypt (data key iv : Bytes)
    (hdata : ∀ x ∈ data, x < 256) (hivlen : iv.length = 16)
    (hiv : ∀ x ∈ iv, x < 256) :
    sm4_decrypt (sm4_encrypt data key iv) key iv = some data := by
  unfold sm4_encrypt sm4_decrypt crypt_cbc_encrypt crypt_cbc_decrypt
  rw [if_pos (cbcEncrypt_flatten_mod _ _ _)]
  unfold sm4CbcRaw
  rw [toBlocks_flatten _
      (fun b hb => (cbcEncrypt_blocks (sm4RoundKeys key) iv _ b hb).1),
    cbcDecrypt_cbcEncrypt _ iv hivlen hiv _
      (toBlocks_spec _ (pkcs7Pad_length_mod (pkcs7Pad data))
        (pkcs7Pad_lt _ (pkcs7Pad_lt data hdata))),
    flatten_toBlocks, pkcs7Unpad_pkcs7Pad]
  dsimp only
  rw [pkcs7Unpad_pkcs7Pad]

/-! ### The unsealing failure path: gmssl's internal unpadding can empty
the buffer, after which `_pkcs7_unpad` raises -/

theorem pkcs7Unpad_isSome (l : Bytes) (hl : l ≠ []) :
    ∃ r, pkcs7Unpad l = some r := by
  rcases List.eq_nil_or_concat l with rfl | ⟨l', a, rfl⟩
  · exact absurd rfl hl
  · unfold pkcs7Unpad
    simp only [List.concat_eq_append]
    rw [List.getLast?_concat]
    by_cases ha : a = 0
    · exact ⟨[], by simp [ha]⟩
    · exact ⟨(l' ++ [a]).take ((l' ++ [a]).length - a), by simp [ha]⟩

theorem pkcs7Unpad_eq_none_iff (l : Bytes) : pkcs7Unpad l = none ↔ l = [] := by
  constructor
  · intro h
    by_contra hne
    obtain ⟨r, hr⟩ := pkcs7Unpad_isSome l hne
    rw [hr] at h
    exact Option.noConfusion h
  · rintro rfl
    rfl

theorem sm4CbcRaw_ne_nil (rks : List Nat) (iv ct : Bytes)
    (hpos : 0 < ct.length) (hiv : 0 < iv.length) :
    sm4CbcRaw rks iv ct ≠ [] := by
  unfold sm4CbcRaw
  have hne : ct ≠ [] := by
    intro h; subst h; simp at hpos
  rw [toBlocks_eq, if_neg hne]
  simp only [cbcDecrypt, List.flatten_cons]
  intro hc
  have h1 : (xorBytes (sm4DecryptBlock rks (ct.take 16)) iv).length = 0 := by
    have := congrArg List.length hc
    simp only [List.length_append, List.length_nil] at this
    omega
  rw [xorBytes_length] at h1
  unfold sm4DecryptBlock at h1
  rw [wordsBytes_length] at h1
  omega

theorem invoke_chaincode_counter (mkTxId : Nat → String → List String → String)
    (timestamp : String) (st : GatewayState) (function : String)
    (args : List String) :
    (invoke_chaincode mkTxId timestamp st function args).2.tx_counter =
      st.tx_counter + 1 := by
  unfold invoke_chaincode
  repeat' split
  all_goals rfl

theorem store_paper_result (mkTxId : Nat → String → List String → String)
    (timestamp : String) (st : GatewayState) (a : StoreArgs) :
    (store_paper mkTxId timestamp st a).1 =
      some { tx_id := mkTxId (st.tx_counter + 1) "StorePaper" (storeArgsList a),
             block_number := st.tx_counter + 1, status := "SUCCESS" } ∧
    (store_paper mkTxId timestamp st a).2.tx_counter = st.tx_counter + 1 :=
  ⟨rfl, rfl⟩

theorem runStorePapers_blockNumbers
    (mkTxId : Nat → String → List String → String) (timestamp : String)
    (st : GatewayState) (l : List StoreArgs) :
    (runStorePapers mkTxId timestamp st l).1.map
        (Option.map InvokeResult.block_number) =
      (List.range' (st.tx_counter + 1) l.length).map some := by
  induction l generalizing st with
  | nil => rfl
  | cons a rest ih =>
    simp only [runStorePapers, List.length_cons, List.range'_succ,
      List.map_cons]
    rw [(store_paper_result mkTxId timestamp st a).1]
    have e2 := (store_paper_result mkTxId timestamp st a).2
    have h3 := ih (store_paper mkTxId timestamp st a).2
    rw [e2] at h3
    rw [h3]
    rfl

/-- Every run of the body either succeeds with content passing the stored
hash check (updating only the status), or returns an error and leaves the
paper row untouched. -/
theorem decryptBody_cases (E : Externals) (user : UserState)
    (check_password : String → Bool) (password : String)
    (storage : IPFSStorage) (paper : PaperState) :
    (∃ c, decryptBody E user check_password password storage paper =
        (.ok paper.original_filename c, { paper with status := "decrypted" }) ∧
        E.sha256hex c = paper.file_hash) ∨
    ((decryptBody E user check_password password storage paper).2 = paper ∧
      ∀ fn c, (decryptBody E user check_password password storage paper).1 ≠
        .ok fn c) := by
  unfold decryptBody
  split
  · exact Or.inr ⟨rfl, by intro fn c h; exact DecryptResponse.noConfusion h⟩
  · split
    · exact Or.inr ⟨rfl, by intro fn c h; exact DecryptResponse.noConfusion h⟩
    · split
      · exact Or.inr ⟨rfl, by intro fn c h; exact DecryptResponse.noConfusion h⟩
      · split
        · exact Or.inr ⟨rfl, by intro fn c h; exact DecryptResponse.noConfusion h⟩
        · split
          · exact Or.inr ⟨rfl, by intro fn c h; exact DecryptResponse.noConfusion h⟩
          · split
            · exact Or.inr ⟨rfl,
                by intro fn c h; exact DecryptResponse.noConfusion h⟩
            · rename_i hhash
              split
              · exact Or.inr ⟨rfl,
                  by intro fn c h; exact DecryptResponse.noConfusion h⟩
              · rename_i hne
                exact Or.inl ⟨_, rfl, not_not.mp hne⟩

/-! ### The claims -/

/-- Claim C4: for every byte sequence P, every 16-byte key and every
16-byte IV, `sm4_decrypt (sm4_encrypt P key iv) key iv = P`: PKCS7-pad
followed by CBC encryption, then CBC decryption followed by PKCS7-unpad,
is the identity (including on the empty sequence and on block-aligned
lengths, where a full padding block is added and removed). -/
theorem C4_sm4_roundtrip (data key iv : Bytes)
    (hdata : ∀ x ∈ data, x < 256) (hkeylen : key.length = 16)
    (hkey : ∀ x ∈ key, x < 256) (hivlen : iv.length = 16)
    (hiv : ∀ x ∈ iv, x < 256) :
    sm4_decrypt (sm4_encrypt data key iv) key iv = some data :=
  sm4_decrypt_sm4_encrypt data key iv hdata hivlen hiv

/-- Witness for C4 at a concrete plaintext, key and IV. -/
theorem C4_sm4_roundtrip_witness :
    sm4_decrypt (sm4_encrypt [0, 255, 17] (List.range 16) (List.replicate 16 9))
      (List.range 16) (List.replicate 16 9) = some [0, 255, 17] :=
  C4_sm4_roundtrip [0, 255, 17] (List.range 16) (List.replicate 16 9)
    (by decide) (by decide) (by decide) (by decide) (by decide)

/-- Claim C9: in fallback mode (gmssl unavailable), `sm2_verify` returns
`True` for every combination of data, signature and public key. -/
theorem C9_fallback_verify_accepts_all (data : Bytes)
    (signature public_key : String) :
    sm2_verify_fallback data signature public_key = true := rfl

set_option maxRecDepth 10000 in
/-- Counterexample to claim C10: `decrypt_private_key` is not total on
block-aligned input.  `c10Ct` is a 16-byte sealed key whose raw CBC
decryption under the derived (wrong-password) key is a full
`0x10`-padding block: gmssl's internal unchecked unpadding empties the
buffer and the outer `_pkcs7_unpad` raises `IndexError` on `data[-1]` —
the call fails rather than returning a hex string. -/
theorem C10_counterexample :
    c10Ct.length = 16 ∧
    decrypt_private_key testExternals c10Ct "wrong-password" [1, 2] =
      none := by
  decide

/-- Claim C10, amended: `decrypt_private_key` performs no password
check of any kind — on block-aligned nonempty input the internal
unchecked unpadding of gmssl `crypt_cbc` always yields a buffer, and the
call fails exactly when that buffer is empty (raw CBC output ending in
`0x00` or in a byte at least its length), in which case `_pkcs7_unpad`
raises `IndexError`; otherwise it returns a hex string.  So a wrong
password silently yields wrong key material or an unrelated
`IndexError`, never a wrong-password signal. -/
theorem C10_unseal_no_password_check (E : Externals) (encrypted_key : Bytes)
    (password : String) (salt : Bytes)
    (hkdf : (E.kdf password salt).length = 32)
    (hmod : encrypted_key.length % 16 = 0)
    (hpos : 0 < encrypted_key.length) :
    (∃ inner, pkcs7Unpad (sm4CbcRaw
        (sm4RoundKeys ((E.kdf password salt).take 16))
        (((E.kdf password salt).drop 16).take 16) encrypted_key) =
      some inner) ∧
    (decrypt_private_key E encrypted_key password salt = none ↔
      pkcs7Unpad (sm4CbcRaw (sm4RoundKeys ((E.kdf password salt).take 16))
        (((E.kdf password salt).drop 16).take 16) encrypted_key) =
      some []) := by
  have hivpos : 0 < (((E.kdf password salt).drop 16).take 16).length := by
    simp only [List.length_take, List.length_drop, hkdf]
    omega
  have hraw := sm4CbcRaw_ne_nil
    (sm4RoundKeys ((E.kdf password salt).take 16))
    (((E.kdf password salt).drop 16).take 16) encrypted_key hpos hivpos
  obtain ⟨inner, hinner⟩ := pkcs7Unpad_isSome _ hraw
  refine ⟨⟨inner, hinner⟩, ?_⟩
  have hdef : decrypt_private_key E encrypted_key password salt =
      (sm4_decrypt encrypted_key ((E.kdf password salt).take 16)
        (((E.kdf password salt).drop 16).take 16)).map bytesToHex := rfl
  rw [hdef]
  unfold sm4_decrypt crypt_cbc_decrypt
  rw [if_pos hmod, hinner]
  dsimp only
  constructor
  · intro h
    have hn : pkcs7Unpad inner = none := by
      rcases he : pkcs7Unpad inner with _ | v
      · rfl
      · rw [he] at h
        exact Option.noConfusion h
    rw [(pkcs7Unpad_eq_none_iff inner).mp hn]
  · intro h
    have he : inner = [] := Option.some.inj h
    subst he
    rfl

set_option maxRecDepth 10000 in
/-- Witness for the amended C10 at the concrete failing sealed key. -/
theorem C10_unseal_no_password_check_witness :
    (∃ inner, pkcs7Unpad (sm4CbcRaw (sm4RoundKeys c10Key) c10Iv c10Ct) =
      some inner) ∧
    (decrypt_private_key testExternals c10Ct "wrong-password" [1, 2] = none ↔
      pkcs7Unpad (sm4CbcRaw (sm4RoundKeys c10Key) c10Iv c10Ct) =
      some []) :=
  C10_unseal_no_password_check testExternals c10Ct "wrong-password" [1, 2]
    (by decide) (by decide) (by decide)

/-- Claim C5: uploading the same bytes twice yields the identical content
address both times (the address is a deterministic function of the
bytes), and a subsequent download of that address returns exactly the
original bytes. -/
theorem C5_upload_idempotent (sha256hex : Bytes → String)
    (storage : IPFSStorage) (content : Bytes) :
    (ipfs_upload sha256hex storage content).1 =
      (ipfs_upload sha256hex (ipfs_upload sha256hex storage content).2
        content).1 ∧
    ipfs_download
        (ipfs_upload sha256hex (ipfs_upload sha256hex storage content).2
          content).2
        (ipfs_upload sha256hex storage content).1 = some content := by
  constructor
  · simp [ipfs_upload, add_bytes]
  · simp [ipfs_upload, ipfs_download, add_bytes, cat, dictSet]

/-- Claim C6: from a fresh ledger, a sequence of N `StorePaper` commits
returns the block numbers 1, 2, …, N in order (no duplicates, no gaps),
and every `invoke_chaincode` write — whatever the function — increases
the single global counter by exactly one. -/
theorem C6_monotonic_ledger (mkTxId : Nat → String → List String → String)
    (timestamp : String) (commits : List StoreArgs) :
    (runStorePapers mkTxId timestamp freshGateway commits).1.map
        (Option.map InvokeResult.block_number) =
      (List.range' 1 commits.length).map some ∧
    ∀ (st : GatewayState) (f : String) (args : List String),
      (invoke_chaincode mkTxId timestamp st f args).2.tx_counter =
        st.tx_counter + 1 :=
  ⟨runStorePapers_blockNumbers mkTxId timestamp freshGateway commits,
   fun st f args => invoke_chaincode_counter mkTxId timestamp st f args⟩

/-- Counterexample to claim C7: the mock ledger's `UpdatePaperStatus`
permits the reverse transition.  After committing `p1` and updating it to
`released`, a further `updateStatus(p1, "locked")` reports SUCCESS and
the stored status becomes `locked` — no `InvalidStateTransition`, and the
status does not remain `released`. -/
theorem C7_counterexample :
    (update_paper_status mkTxIdTest "t3" ledgerAfterRelease "p1" "locked").1 =
      some { tx_id := "UpdatePaperStatus3", block_number := 3,
             status := "SUCCESS" } ∧
    ((update_paper_status mkTxIdTest "t3" ledgerAfterRelease "p1"
        "locked").2.ledger "p1").map LedgerRecord.status = some "locked" := by
  set_option maxRecDepth 10000 in decide

/-- Claim C7, amended: `updateStatus` performs no transition validation:
on an existing paper it overwrites the stored status with any requested
value (including `released -> locked`) and reports SUCCESS. -/
theorem C7_update_status_unconditional
    (mkTxId : Nat → String → List String → String) (ts : String)
    (st : GatewayState) (pid s : String) (r : LedgerRecord)
    (h : st.ledger pid = some r) :
    (update_paper_status mkTxId ts st pid s).1 =
      some { tx_id := mkTxId (st.tx_counter + 1) "UpdatePaperStatus" [pid, s],
             block_number := st.tx_counter + 1, status := "SUCCESS" } ∧
    (update_paper_status mkTxId ts st pid s).2.ledger pid =
      some { r with status := s, updated_at := ts } := by
  constructor
  · simp [update_paper_status, invoke_chaincode, h]
  · simp [update_paper_status, invoke_chaincode, h, dictSet]

/-- Witness for the amended C7 at the concrete two-transaction ledger. -/
theorem C7_update_status_unconditional_witness :
    (update_paper_status mkTxIdTest "t3" ledgerAfterRelease "p1" "locked").1 =
      some { tx_id := "UpdatePaperStatus3", block_number := 3,
             status := "SUCCESS" } ∧
    (update_paper_status mkTxIdTest "t3" ledgerAfterRelease "p1"
        "locked").2.ledger "p1" =
      some { storedRecord with status := "locked", updated_at := "t3" } :=
  C7_update_status_unconditional mkTxIdTest "t3" ledgerAfterRelease "p1"
    "locked" { storedRecord with status := "released", updated_at := "t2" }
    (by decide)

/-- Counterexample to claim C8: after a commit followed by a status
update, `GetPaperHistory` returns a single entry holding the *current*
projection (status `released`), not the commit-time entry plus the update
entry: the commit-time status is lost because the update mutated the
record in place. -/
theorem C8_counterexample :
    query_chaincode ledgerAfterRelease "GetPaperHistory" ["p1"] =
      .history [{ tx_id := "StorePaper1", timestamp := "t1",
                  is_delete := false,
                  paper := { storedRecord with
                    status := "released", updated_at := "t2" } }] := by
  decide

/-- Claim C8, amended: a status update mutates the stored record in
place, and `GetPaperHistory` returns exactly one entry containing the
current projection (with the commit-time `tx_id` and `created_at`), so
the commit-time status is not preserved. -/
theorem C8_history_single_projection
    (mkTxId : Nat → String → List String → String) (ts : String)
    (st : GatewayState) (pid s : String) (r : LedgerRecord)
    (h : st.ledger pid = some r) :
    query_chaincode (update_paper_status mkTxId ts st pid s).2
        "GetPaperHistory" [pid] =
      .history [{ tx_id := r.tx_id, timestamp := r.created_at,
                  is_delete := false,
                  paper := { r with status := s, updated_at := ts } }] := by
  simp [update_paper_status, invoke_chaincode, query_chaincode, h, dictSet]

/-- Witness for the amended C8 at the concrete two-transaction ledger. -/
theorem C8_history_single_projection_witness :
    query_chaincode (update_paper_status mkTxIdTest "t3" ledgerAfterRelease
        "p1" "locked").2 "GetPaperHistory" ["p1"] =
      .history [{ tx_id := "StorePaper1", timestamp := "t1",
                  is_delete := false,
                  paper := { storedRecord with
                    status := "locked", updated_at := "t3" } }] :=
  C8_history_single_projection mkTxIdTest "t3" ledgerAfterRelease "p1"
    "locked" { storedRecord with status := "released", updated_at := "t2" }
    (by decide)

/-- Claim C3: for every plaintext P and every keypair satisfying the SM2
library's round-trip contract, `encrypt_file` followed by `decrypt_file`
with the matching private key recovers the original symmetric key and
returns exactly P (the stored hash matches); and with *any* private key,
`decrypt_file` returns content only when its hash equals the sealed
plaintext hash — it never silently succeeds with wrong content. -/
theorem C3_envelope_roundtrip (E : Externals) (P sm4_key iv : Bytes)
    (pub priv : String) (hP : ∀ x ∈ P, x < 256) (hivlen : iv.length = 16)
    (hiv : ∀ x ∈ iv, x < 256)
    (hsm2 : E.sm2decrypt (E.sm2encrypt sm4_key pub) priv = some sm4_key) :
    decrypt_file E (encrypt_file E sm4_key iv P pub).encrypted_content
        (encrypt_file E sm4_key iv P pub).encrypted_key
        (encrypt_file E sm4_key iv P pub).iv priv
        (some (encrypt_file E sm4_key iv P pub).file_hash) = some P ∧
    ∀ (priv' : String) (c : Bytes),
      decrypt_file E (encrypt_file E sm4_key iv P pub).encrypted_content
          (encrypt_file E sm4_key iv P pub).encrypted_key
          (encrypt_file E sm4_key iv P pub).iv priv'
          (some (encrypt_file E sm4_key iv P pub).file_hash) = some c →
      E.sm3hash c = E.sm3hash P := by
  constructor
  · show decrypt_file E (sm4_encrypt P sm4_key iv) (E.sm2encrypt sm4_key pub)
      iv priv (some (E.sm3hash P)) = some P
    unfold decrypt_file
    rw [hsm2]
    dsimp only
    rw [sm4_decrypt_sm4_encrypt P sm4_key iv hP hivlen hiv]
    dsimp only
    rw [if_pos rfl]
  · intro priv' c h
    replace h : decrypt_file E (sm4_encrypt P sm4_key iv)
        (E.sm2encrypt sm4_key pub) iv priv' (some (E.sm3hash P)) = some c := h
    unfold decrypt_file at h
    rcases h2 : E.sm2decrypt (E.sm2encrypt sm4_key pub) priv' with _ | k
    · rw [h2] at h; exact absurd h (by simp)
    · rw [h2] at h; dsimp only at h
      rcases h3 : sm4_decrypt (sm4_encrypt P sm4_key iv) k iv with _ | d
      · rw [h3] at h; exact absurd h (by simp)
      · rw [h3] at h; dsimp only at h
        by_cases h4 : E.sm3hash d = E.sm3hash P
        · rw [if_pos h4] at h
          obtain rfl : d = c := by simpa using h
          exact h4
        · rw [if_neg h4] at h
          exact absurd h (by simp)

/-- Witness for C3 with transparent SM2 primitives satisfying the
round-trip contract, at a concrete plaintext, key and IV. -/
theorem C3_envelope_roundtrip_witness :
    decrypt_file testExternals
        (encrypt_file testExternals testKey testIv testPlain
          "pub").encrypted_content
        (encrypt_file testExternals testKey testIv testPlain
          "pub").encrypted_key
        (encrypt_file testExternals testKey testIv testPlain "pub").iv "priv"
        (some (encrypt_file testExternals testKey testIv testPlain
          "pub").file_hash) = some testPlain ∧
    ∀ (priv' : String) (c : Bytes),
      decrypt_file testExternals
          (encrypt_file testExternals testKey testIv testPlain
            "pub").encrypted_content
          (encrypt_file testExternals testKey testIv testPlain
            "pub").encrypted_key
          (encrypt_file testExternals testKey testIv testPlain "pub").iv priv'
          (some (encrypt_file testExternals testKey testIv testPlain
            "pub").file_hash) = some c →
      testExternals.sm3hash c = testExternals.sm3hash testPlain :=
  C3_envelope_roundtrip testExternals testPlain testKey testIv "pub" "priv"
    (by decide) (by decide) (by decide) rfl

/-- Claim C2: whatever bytes the content store returns for the paper's
address (in particular a ciphertext that differs from the stored one),
every run of the release endpoint either returns content whose hash
equals the stored plaintext hash (updating only the status), or returns
an error — decryption failure or the integrity rejection — and leaves the
paper row unchanged; altered content can never be returned as valid,
since returned content always passes the stored-hash comparison. -/
theorem C2_tamper_guard (E : Externals) (now : Nat) (user : UserState)
    (check_password : String → Bool) (password : String)
    (storage : IPFSStorage) (paper : PaperState) :
    (∃ c, decryptView E now user check_password password storage paper =
        (.ok paper.original_filename c, { paper with status := "decrypted" }) ∧
        E.sha256hex c = paper.file_hash) ∨
    ((decryptView E now user check_password password storage paper).2 =
        paper ∧
      ∀ fn c, (decryptView E now user check_password password storage
        paper).1 ≠ .ok fn c) := by
  unfold decryptView
  split
  · split
    · exact Or.inr ⟨rfl, fun fn c h => DecryptResponse.noConfusion h⟩
    · exact decryptBody_cases E user check_password password storage paper
  · exact decryptBody_cases E user check_password password storage paper

/-- Claim C1: with an unlock time set, a release request at `now` strictly
before it is answered with the 403 time-lock error whose message is a
function of the unlock time alone — the same response whatever the stored
ciphertext and sealed key are — and the paper row is unchanged; a release
at `now ≥ unlockTime` by a superintendent/admin/coe caller with the
correct password and correct private key returns exactly the committed
plaintext, whose hash equals the stored `file_hash`, and moves the paper
to `decrypted`. -/
theorem C1_timelock_gates_release (E : Externals) (now : Nat)
    (user : UserState) (check_password : String → Bool) (password : String)
    (storage : IPFSStorage) (paper : PaperState) (t : Nat)
    (P sm4_key : Bytes) (upk : String)
    (ht : paper.unlock_time = some t)
    (hrole : user.role = "superintendent" ∨ user.role = "admin" ∨
      user.role = "coe")
    (hpw : password ≠ "" ∧ check_password password = true)
    (hstore : storage paper.ipfs_hash =
      some (sm4_encrypt P sm4_key paper.encryption_iv))
    (hupk : decrypt_private_key E user.encrypted_private_key password
      user.salt = some upk)
    (hsm2 : E.sm2decrypt paper.encrypted_key upk = some sm4_key)
    (hhash : paper.file_hash = E.sha256hex P)
    (hP : ∀ x ∈ P, x < 256) (hivlen : paper.encryption_iv.length = 16)
    (hiv : ∀ x ∈ paper.encryption_iv, x < 256) :
    (now < t →
      decryptView E now user check_password password storage paper =
        (.lockedError (lockedMessage t), paper) ∧
      ∀ (storage' : IPFSStorage) (ek' : Bytes),
        (decryptView E now user check_password password storage'
            { paper with encrypted_key := ek' }).1 =
          .lockedError (lockedMessage t)) ∧
    (t ≤ now →
      decryptView E now user check_password password storage paper =
        (.ok paper.original_filename P,
         { paper with status := "decrypted" }) ∧
      E.sha256hex P = paper.file_hash) := by
  constructor
  · intro hlt
    constructor
    · unfold decryptView
      rw [ht]
      dsimp only
      rw [if_pos hlt]
    · intro storage' ek'
      unfold decryptView
      have he : ({ paper with encrypted_key := ek' } : PaperState).unlock_time =
          some t := ht
      rw [he]
      dsimp only
      rw [if_pos hlt]
  · intro hge
    unfold decryptView
    split
    · rename_i t' heq
      rw [ht] at heq
      obtain rfl : t' = t := (Option.some.inj heq).symm
      rw [if_neg (Nat.not_lt.mpr hge)]
      unfold decryptBody
      rw [if_neg (not_not.mpr hrole),
        if_neg (by
          rintro (h1 | h2)
          · exact hpw.1 h1
          · exact h2 (by simp [hpw.2]))]
      unfold ipfs_download cat
      rw [hstore, hupk]
      dsimp only
      rw [hsm2]
      dsimp only
      rw [sm4_decrypt_sm4_encrypt P sm4_key paper.encryption_iv hP hivlen hiv]
      dsimp only
      rw [if_neg (not_not.mpr hhash.symm)]
      exact ⟨rfl, hhash.symm⟩
    · rename_i heq
      rw [ht] at heq
      exact absurd heq (by simp)

set_option maxRecDepth 10000 in
/-- Witness for C1: a concrete paper whose unlock time 100 has been
reached at `now = 100`, released by a coe user with the correct password
and key material, returning the committed plaintext. -/
theorem C1_timelock_gates_release_witness :
    (100 : Nat) ≤ 100 ∧
    decryptView testExternals 100 testUser (fun _ => true) "pw" testStorage
        testPaper =
      (.ok "exam.pdf" testPlain, { testPaper with status := "decrypted" }) := by
  have hsome : (decrypt_private_key testExternals
      testUser.encrypted_private_key "pw" testUser.salt).isSome = true := by
    decide
  have h := C1_timelock_gates_release testExternals 100 testUser
    (fun _ => true) "pw" testStorage testPaper 100 testPlain testKey
    ((decrypt_private_key testExternals testUser.encrypted_private_key "pw"
      testUser.salt).get hsome)
    rfl (Or.inr (Or.inr rfl)) ⟨by decide, rfl⟩ rfl
    (Option.some_get hsome).symm rfl rfl (by decide) (by decide) (by decide)
  exact ⟨le_refl 100, (h.2 (le_refl 100)).1⟩

end ExamSystem
